import Mathlib

/-
Verification of the HTTPDNS Go SDK resolution core against its
natural-language specification.

The Go sources are shallowly embedded: pure functions become Lean
functions; stateful methods become explicit state passing; wall-clock
instants are modelled as `Int` seconds; `time.Duration` values are kept
in seconds (the code multiplies TTLs by `time.Second`, which is
order-preserving and does not affect any comparison the code makes);
machine `int` values that can go negative (TTLs) are `Int`.  External
collaborators (the HTTP transport, JSON decoding, `net.ParseIP`) are
parameters of the embedded functions.
-/

set_option maxRecDepth 200000

namespace HTTPDNS

/-- Error values of `errors.go` together with the dynamic error shapes the
code builds with `fmt.Errorf` / `NewHTTPDNSError`.  `wrapped op domain e`
is `HTTPDNSError{Op: op, Domain: domain, Err: e}`. -/
inductive GoErr where
  | nilError
  | invalidConfig
  | authFailed
  | networkTimeout
  | invalidDomain
  | serviceUnavailable
  | tooManyDomains
  | noServiceIPs
  | transport
  | httpStatus (code : Nat)
  | parseFailed
  | wrapped (op : String) (domain : String) (err : GoErr)
  deriving DecidableEq

/-- network.go `extractServiceIPFromURL`: strip a leading `http://` or
`https://`, then take everything up to the first `/` (the whole rest when
no `/` occurs, as `strings.Index` returning -1 does in the source). -/
def extractServiceIPFromURL (url : String) : String :=
  let cs :=
    if ("http://".toList).isPrefixOf url.toList then url.toList.drop 7
    else if ("https://".toList).isPrefixOf url.toList then url.toList.drop 8
    else url.toList
  String.mk (cs.takeWhile (fun c => c ≠ '/'))

/-- Result of the `c.client.Do(req)` call of one retry attempt: either a
transport error (`err != nil`) or a response with a status code. -/
inductive HttpResult where
  | transportErr
  | resp (status : Nat)
  deriving DecidableEq

/-- What one iteration of `DoRequestWithRetry` observes: the `buildURL()`
closure fails, or it yields a URL and the HTTP call has the given result. -/
inductive AttemptOutcome where
  | buildErr (e : GoErr)
  | urlOk (url : String) (r : HttpResult)
  deriving DecidableEq

/-- Result of `DoRequestWithRetry`: the response of attempt `attempt` is
returned to the caller, or the loop ends with
`NewHTTPDNSError("request_retry_failed", "", lastErr)`. -/
inductive RetryResult where
  | success (attempt : Nat) (status : Nat)
  | failure (lastErr : GoErr)
  deriving DecidableEq

/-- The retry loop of network.go:231-277, fuel-indexed.  `attempt` is the
loop counter, `fuel` the remaining iterations (invariant at the call site:
`attempt + fuel = maxAttempts`).  Besides the result it returns the trace
of service IPs marked failed (`MarkServiceIPFailed`) and of backoff sleeps
(seconds), in order.  Marking and sleeping happen only under the source's
`attempt < maxAttempts-1` guard; marking is skipped when the extracted
service IP is empty. -/
def retryLoop (outcome : Nat → AttemptOutcome) (maxAttempts : Nat) :
    Nat → Nat → GoErr → RetryResult × List String × List Nat
  | _, 0, lastErr => (.failure lastErr, [], [])
  | attempt, fuel + 1, _ =>
    match outcome attempt with
    | .buildErr e =>
      let sl := if attempt < maxAttempts - 1 then [attempt + 1] else []
      let rec_ := retryLoop outcome maxAttempts (attempt + 1) fuel e
      (rec_.1, rec_.2.1, sl ++ rec_.2.2)
    | .urlOk url r =>
      match r with
      | .resp status =>
        if status = 200 then (.success attempt status, [], [])
        else
          let e := GoErr.wrapped "http_status" "" (GoErr.httpStatus status)
          let mk :=
            if attempt < maxAttempts - 1 then
              (if extractServiceIPFromURL url ≠ "" then [extractServiceIPFromURL url] else [])
            else []
          let sl := if attempt < maxAttempts - 1 then [attempt + 1] else []
          let rec_ := retryLoop outcome maxAttempts (attempt + 1) fuel e
          (rec_.1, mk ++ rec_.2.1, sl ++ rec_.2.2)
      | .transportErr =>
        let e := GoErr.wrapped "http_request" "" GoErr.transport
        let mk :=
          if attempt < maxAttempts - 1 then
            (if extractServiceIPFromURL url ≠ "" then [extractServiceIPFromURL url] else [])
          else []
        let sl := if attempt < maxAttempts - 1 then [attempt + 1] else []
        let rec_ := retryLoop outcome maxAttempts (attempt + 1) fuel e
        (rec_.1, mk ++ rec_.2.1, sl ++ rec_.2.2)

/-- network.go `DoRequestWithRetry`, with `maxAttempts = MaxRetries + 1`.
The initial `lastErr` is Go's nil error. -/
def DoRequestWithRetry (outcome : Nat → AttemptOutcome) (maxRetries : Nat) :
    RetryResult × List String × List Nat :=
  retryLoop outcome (maxRetries + 1) 0 (maxRetries + 1) GoErr.nilError

/-- An attempt that does not return a response to the caller: the URL
build failed, the transport failed, or the status code was not 200. -/
def attemptFails : AttemptOutcome → Prop
  | .buildErr _ => True
  | .urlOk _ .transportErr => True
  | .urlOk _ (.resp s) => s ≠ 200

instance : DecidablePred attemptFails := by
  intro o
  unfold attemptFails
  match o with
  | .buildErr _ => exact inferInstanceAs (Decidable True)
  | .urlOk _ .transportErr => exact inferInstanceAs (Decidable True)
  | .urlOk _ (.resp s) => exact inferInstanceAs (Decidable (s ≠ 200))

/-- internal/pool `ServiceIPManager` state.  Instants are `Int` seconds;
`failedIPs` is the IP → last-failure-instant map as an association list
with unique keys (Go map semantics, used only through lookups here). -/
structure ServiceIPManager where
  serviceIPs : List String
  currentIP : String
  failedIPs : List (String × Int)
  updatedAt : Int
  deriving DecidableEq

/-- Lookup in the `failedIPs` map (`failTime, exists := m.failedIPs[ip]`). -/
def lookupFailed (failedIPs : List (String × Int)) (ip : String) : Option Int :=
  (failedIPs.find? (fun p => p.1 == ip)).map (fun p => p.2)

/-- The source's per-IP test `!exists || time.Since(failTime) > 5*time.Minute`:
the IP is not in the failed map, or its failure is more than 300 seconds old. -/
def ipUsable (failedIPs : List (String × Int)) (now : Int) (ip : String) : Bool :=
  match lookupFailed failedIPs ip with
  | none => true
  | some failTime => now - failTime > 300

/-- The rotation `for` loop of `GetAvailableIP`: first list element that is
not in the failed map or whose failure is older than 5 minutes. -/
def rotateToUsable (failedIPs : List (String × Int)) (now : Int) :
    List String → Option String
  | [] => none
  | ip :: rest =>
    if ipUsable failedIPs now ip then some ip else rotateToUsable failedIPs now rest

/-- `ServiceIPManager.GetAvailableIP` of the pool package, with the
post-call manager state. -/
def GetAvailableIP (m : ServiceIPManager) (now : Int) :
    Except GoErr String × ServiceIPManager :=
  match m.serviceIPs with
  | [] => (.error GoErr.noServiceIPs, m)
  | ip0 :: rest =>
    if m.currentIP ≠ "" ∧ ipUsable m.failedIPs now m.currentIP then
      (.ok m.currentIP, m)
    else
      match rotateToUsable m.failedIPs now (ip0 :: rest) with
      | some ip => (.ok ip, { m with currentIP := ip })
      | none => (.ok ip0, { m with currentIP := ip0 })

/-- The claim's eligibility wording: the candidate is unmarked in the
failed map, or its recorded failure is older than 5 minutes. -/
def eligibleSpec (failedIPs : List (String × Int)) (now : Int) (ip : String) : Prop :=
  lookupFailed failedIPs ip = none ∨
    ∃ t, lookupFailed failedIPs ip = some t ∧ now - t > 300

instance (failedIPs : List (String × Int)) (now : Int) :
    DecidablePred (eligibleSpec failedIPs now) := by
  intro ip
  unfold eligibleSpec
  exact inferInstance

/-- Selection function written from the claim's words (kept separate from
the embedded `GetAvailableIP`, to be proved equal to it): fail with
NoServiceIPs iff the list is empty; keep the current IP when set and
eligible; otherwise the first eligible candidate in list order, made
current; otherwise the head of the list, resetting the current pointer. -/
def pickSpec (m : ServiceIPManager) (now : Int) :
    Except GoErr String × ServiceIPManager :=
  if m.serviceIPs = [] then (.error GoErr.noServiceIPs, m)
  else if m.currentIP ≠ "" ∧ eligibleSpec m.failedIPs now m.currentIP then
    (.ok m.currentIP, m)
  else
    match m.serviceIPs.find? (fun ip => decide (eligibleSpec m.failedIPs now ip)) with
    | some ip => (.ok ip, { m with currentIP := ip })
    | none => (.ok (m.serviceIPs.headD ""), { m with currentIP := m.serviceIPs.headD "" })

/-- Go `unicode.IsSpace`: the Unicode White_Space property, i.e. exactly
U+0009-U+000D, U+0020, U+0085, U+00A0, U+1680, U+2000-U+200A, U+2028,
U+2029, U+202F, U+205F and U+3000 (Go's `unicode.White_Space` range
table). -/
def goIsSpace (c : Char) : Bool :=
  c.toNat = 32 || (9 ≤ c.toNat && c.toNat ≤ 13) || c.toNat = 133 ||
  c.toNat = 160 || c.toNat = 5760 || (8192 ≤ c.toNat && c.toNat ≤ 8202) ||
  c.toNat = 8232 || c.toNat = 8233 || c.toNat = 8239 || c.toNat = 8287 ||
  c.toNat = 12288

/-- `strings.TrimSpace`, left side: drop leading whitespace. -/
def trimLeftSpace (l : List Char) : List Char := l.dropWhile goIsSpace

/-- `strings.TrimSpace`, right side: drop trailing whitespace. -/
def trimRightSpace (l : List Char) : List Char :=
  (l.reverse.dropWhile goIsSpace).reverse

/-- `strings.TrimRight(s, ".")`: drop trailing dots. -/
def trimRightDots (l : List Char) : List Char :=
  (l.reverse.dropWhile (fun c => c == '.')).reverse

/-- auth.go `normalizeDomain`: trim surrounding whitespace, lowercase,
drop trailing dots.  Go's `strings.ToLower` lowercases each rune via
`unicode.ToLower`; `Char.toLower` is its restriction to ASCII, which
covers every concrete string in this development. -/
def normList (l : List Char) : List Char :=
  trimRightDots ((trimRightSpace (trimLeftSpace l)).map Char.toLower)

/-- String-level wrapper of `normList` (the embedded `normalizeDomain`). -/
def normalizeDomain (s : String) : String :=
  String.mk (normList s.toList)

/-- auth.go `CacheEntry` (TTL in seconds as the source's `int`, query time
as `Int` seconds). -/
structure CacheEntry where
  ipv4 : List String
  ipv6 : List String
  ttl : Int
  queryTime : Int
  deriving DecidableEq

/-- `CacheEntry.IsExpired`: `time.Now().After(QueryTime + TTL seconds)`. -/
def CacheEntry.IsExpired (e : CacheEntry) (now : Int) : Bool :=
  now > e.queryTime + e.ttl

/-- The in-memory part of auth.go's `CacheManager`. -/
structure CacheManager where
  cache : List (String × CacheEntry)
  enabled : Bool
  allowExpired : Bool
  deriving DecidableEq

/-- Generic association-list lookup (Go map read). -/
def alLookup {α : Type} (l : List (String × α)) (k : String) : Option α :=
  (l.find? (fun p => p.1 == k)).map (fun p => p.2)

/-- Generic association-list store (Go map write): replace in place or
append. -/
def alInsert {α : Type} : List (String × α) → String → α → List (String × α)
  | [], k, v => [(k, v)]
  | (k', v') :: rest, k, v =>
    if k' == k then (k, v) :: rest else (k', v') :: alInsert rest k v

/-- Go map read `c.cache[domain]`. -/
def lookupCache (cache : List (String × CacheEntry)) (k : String) : Option CacheEntry :=
  alLookup cache k

/-- Go map write `c.cache[domain] = entry`. -/
def insertCache (cache : List (String × CacheEntry)) (k : String) (v : CacheEntry) :
    List (String × CacheEntry) :=
  alInsert cache k v

/-- `CacheManager.Get` (auth.go:360-386) with the post-call manager state
made explicit: returns `(entry, hit, needAsyncUpdate)` and the manager.
The source only reads under `RLock`; every branch hands back `c`. -/
def CacheManager.Get (c : CacheManager) (now : Int) (domain : String) :
    (Option CacheEntry × Bool × Bool) × CacheManager :=
  if !c.enabled then ((none, false, false), c)
  else
    match lookupCache c.cache (normalizeDomain domain) with
    | none => ((none, false, false), c)
    | some entry =>
      if entry.IsExpired now then
        if c.allowExpired then ((some entry, true, true), c)
        else ((none, false, false), c)
      else ((some entry, true, false), c)

/-- `CacheManager.Set` (auth.go:389-407): no-op when disabled; clamp
non-positive TTL to 60; store under the normalized key. -/
def CacheManager.Set (c : CacheManager) (domain : String) (entry : CacheEntry) : CacheManager :=
  if !c.enabled then c
  else
    let entry := if entry.ttl ≤ 0 then { entry with ttl := 60 } else entry
    { c with cache := insertCache c.cache (normalizeDomain domain) entry }

/-- All-whitespace character list. -/
def spaceStr (l : List Char) : Prop := ∀ c ∈ l, goIsSpace c = true

instance (l : List Char) : Decidable (spaceStr l) := by
  unfold spaceStr
  exact List.decidableBAll _ l

/-- All-dots character list. -/
def dotStr (l : List Char) : Prop := ∀ c ∈ l, c = '.'

instance (l : List Char) : Decidable (dotStr l) := by
  unfold dotStr
  exact List.decidableBAll _ l

/-- `v` differs from `s` only in surrounding whitespace, letter case and
trailing dots: it is a per-character case variant of `s`, wrapped in
optional trailing dots and surrounding whitespace. -/
def domainVariant (s v : String) : Prop :=
  ∃ ws1 c dots ws2, spaceStr ws1 ∧ c.map Char.toLower = s.toList.map Char.toLower ∧
    dotStr dots ∧ spaceStr ws2 ∧ v.toList = ws1 ++ c ++ dots ++ ws2

/-- types.go `HTTPDNSResponse` (the fields the resolver reads; `origin_ttl`
and `client_ip` are tolerated but never read by the embedded paths). -/
structure HTTPDNSResponse where
  host : String
  ips : List String
  ipsv6 : List String
  ttl : Int
  deriving DecidableEq

/-- types.go `ResolveResult`, over an abstract address type `IP` standing
for `net.IP` (the standard library's `net.ParseIP` is the external
parameter `parseIP` below).  `ttl` is the `time.Duration` in seconds;
`source` is always `SourceHTTPDNS` and is omitted. -/
structure ResolveResult (IP : Type) where
  domain : String
  clientIP : String
  ipv4 : List IP
  ipv6 : List IP
  ttl : Int
  timestamp : Int
  deriving DecidableEq

/-- types.go `ResolveOptions` after applying the caller's options. -/
structure ResolveOptions where
  queryType : String
  timeout : Int
  clientIP : String

/-- Trace of externally visible resolver actions, to state claims such as
"no HTTP request issued before validation". -/
inductive ResolveEvent where
  | cacheProbe (domain : String)
  | asyncRefresh (domain : String)
  | httpRequest
  deriving DecidableEq

section Resolver

variable {IP : Type} (parseIP : String → Option IP) (ipToString : IP → String)

/-- auth.go `CacheEntry.ToResolveResult`: parse the stored strings, drop
the unparseable ones. -/
def ToResolveResult (e : CacheEntry) (domain : String) : ResolveResult IP :=
  { domain := domain
    clientIP := ""
    ipv4 := e.ipv4.filterMap parseIP
    ipv6 := e.ipv6.filterMap parseIP
    ttl := e.ttl
    timestamp := e.queryTime }

/-- resolver.go `updateCache`: build a `CacheEntry` from the result (IPs
re-rendered as strings, TTL as the server's `int`) and `Set` it. -/
def updateCache (cm : CacheManager) (domain : String) (result : ResolveResult IP)
    (ttl : Int) : CacheManager :=
  cm.Set domain
    { ipv4 := result.ipv4.map ipToString
      ipv6 := result.ipv6.map ipToString
      ttl := ttl
      queryTime := result.timestamp }

/-- resolver.go `ResolveSingle` (resolver.go:53-159).  External steps are
parameters: `updateIPs` is the outcome of `UpdateServiceIPsIfNeeded`, and
`fetch` is the combined outcome of `DoRequestWithRetry` plus the JSON
decode of the body (both failure modes are wrapped identically by the
source).  Returns the result, the cache state after the call, and the
event trace.  Metrics, logging and the timeout context are pure side
channels and are not modelled. -/
def ResolveSingle (cm : CacheManager) (now : Int) (domain : String)
    (options : ResolveOptions) (updateIPs : Except GoErr Unit)
    (fetch : Except GoErr HTTPDNSResponse) :
    Except GoErr (ResolveResult IP) × CacheManager × List ResolveEvent :=
  match CacheManager.Get cm now domain with
  | ((some entry, true, needAsyncUpdate), cm1) =>
    let evs := if needAsyncUpdate then
        [ResolveEvent.cacheProbe domain, ResolveEvent.asyncRefresh domain]
      else [ResolveEvent.cacheProbe domain]
    let result := { ToResolveResult parseIP entry domain with clientIP := options.clientIP }
    (.ok result, cm1, evs)
  | (_, cm1) =>
    match updateIPs with
    | .error e =>
      (.error (GoErr.wrapped "resolve_single" domain e), cm1, [ResolveEvent.cacheProbe domain])
    | .ok _ =>
      match fetch with
      | .error e =>
        (.error (GoErr.wrapped "resolve_single" domain e), cm1,
          [ResolveEvent.cacheProbe domain, ResolveEvent.httpRequest])
      | .ok dnsResp =>
        let result : ResolveResult IP :=
          { domain := domain
            clientIP := options.clientIP
            ipv4 := dnsResp.ips.filterMap parseIP
            ipv6 := dnsResp.ipsv6.filterMap parseIP
            ttl := if dnsResp.ttl > 0 then dnsResp.ttl else 0
            timestamp := now }
        let cm2 := updateCache ipToString cm1 domain result dnsResp.ttl
        (.ok result, cm2,
          [ResolveEvent.cacheProbe domain, ResolveEvent.httpRequest])

/-- The cache-partition loop of `ResolveBatch` (resolver.go:188-207):
probe each domain in order, collecting cached results and the uncached
remainder, threading the cache state. -/
def partitionCached (cm : CacheManager) (now : Int) (clientIP : String) :
    List String → List (ResolveResult IP) × List String × CacheManager × List ResolveEvent
  | [] => ([], [], cm, [])
  | d :: rest =>
    match CacheManager.Get cm now d with
    | ((some entry, true, needAsyncUpdate), cm1) =>
      let tail := partitionCached cm1 now clientIP rest
      let r := { ToResolveResult parseIP entry d with clientIP := clientIP }
      (r :: tail.1, tail.2.1, tail.2.2.1,
        (if needAsyncUpdate then [ResolveEvent.cacheProbe d, ResolveEvent.asyncRefresh d]
         else [ResolveEvent.cacheProbe d]) ++ tail.2.2.2)
    | (_, cm1) =>
      let tail := partitionCached cm1 now clientIP rest
      (tail.1, d :: tail.2.1, tail.2.2.1, ResolveEvent.cacheProbe d :: tail.2.2.2)

/-- One iteration of the per-host merge loop of `ResolveBatch`
(resolver.go:265-304): fetch or create the host's partial result,
concatenate the record's parseable IPv4/IPv6 entries, and keep the
largest positive TTL (also recorded in the `domainTTLs` map used for the
cache write). -/
def mergeStep (clientIP : String) (timestamp : Int)
    (acc : List (String × ResolveResult IP) × List (String × Int))
    (rec_ : HTTPDNSResponse) :
    List (String × ResolveResult IP) × List (String × Int) :=
  let domain := rec_.host
  let cur : ResolveResult IP :=
    match alLookup acc.1 domain with
    | some r => r
    | none =>
      { domain := domain, clientIP := clientIP, ipv4 := [], ipv6 := [],
        ttl := 0, timestamp := timestamp }
  let cur := { cur with
    ipv4 := cur.ipv4 ++ rec_.ips.filterMap parseIP
    ipv6 := cur.ipv6 ++ rec_.ipsv6.filterMap parseIP }
  if rec_.ttl > 0 ∧ rec_.ttl > cur.ttl then
    (alInsert acc.1 domain { cur with ttl := rec_.ttl },
     alInsert acc.2 domain rec_.ttl)
  else (alInsert acc.1 domain cur, acc.2)

/-- The per-host merge loop of `ResolveBatch` (resolver.go:260-304). -/
def mergeBatchRecords (clientIP : String) (timestamp : Int)
    (records : List HTTPDNSResponse) :
    List (String × ResolveResult IP) × List (String × Int) :=
  records.foldl (mergeStep parseIP clientIP timestamp) ([], [])

/-- The records of a batch response carrying the given host, in record
order (spec-side helper for stating the merge). -/
def hostRecords (records : List HTTPDNSResponse) (h : String) : List HTTPDNSResponse :=
  records.filter (fun x => x.host == h)

/-- Concatenation, in record order, of the parseable `ips` entries of the
host's records (spec side). -/
def joined4 (records : List HTTPDNSResponse) (h : String) : List IP :=
  ((hostRecords records h).map (fun x => x.ips.filterMap parseIP)).flatten

/-- Concatenation, in record order, of the parseable `ipsv6` entries of
the host's records (spec side). -/
def joined6 (records : List HTTPDNSResponse) (h : String) : List IP :=
  ((hostRecords records h).map (fun x => x.ipsv6.filterMap parseIP)).flatten

/-- The network-result loop of `ResolveBatch` (resolver.go:307-313): for
each uncached domain in order, keep the merged record when one exists
(hosts absent from the response are skipped), writing each kept result to
the cache.  A missing `domainTTLs` key reads as Go's zero value 0. -/
def collectNetworkResults (cm : CacheManager)
    (domainResults : List (String × ResolveResult IP))
    (domainTTLs : List (String × Int)) :
    List String → List (ResolveResult IP) × CacheManager
  | [] => ([], cm)
  | d :: rest =>
    match alLookup domainResults d with
    | some result =>
      let cm1 := updateCache ipToString cm d result ((alLookup domainTTLs d).getD 0)
      let tail := collectNetworkResults cm1 domainResults domainTTLs rest
      (result :: tail.1, tail.2)
    | none => collectNetworkResults cm domainResults domainTTLs rest

/-- resolver.go `ResolveBatch` (resolver.go:162-322), parameterized like
`ResolveSingle`; `fetch` is the decoded `dns` array of the batch
response. -/
def ResolveBatch (cm : CacheManager) (now : Int) (domains : List String)
    (options : ResolveOptions) (updateIPs : Except GoErr Unit)
    (fetch : Except GoErr (List HTTPDNSResponse)) :
    Except GoErr (List (ResolveResult IP)) × CacheManager × List ResolveEvent :=
  if domains = [] then
    (.error (GoErr.wrapped "resolve_batch" "" GoErr.invalidDomain), cm, [])
  else if domains.length > 5 then
    (.error (GoErr.wrapped "resolve_batch" "" GoErr.tooManyDomains), cm, [])
  else
    let part := partitionCached parseIP cm now options.clientIP domains
    let cachedResults := part.1
    let uncachedDomains := part.2.1
    let cm1 := part.2.2.1
    let evs := part.2.2.2
    if uncachedDomains = [] then (.ok cachedResults, cm1, evs)
    else
      match updateIPs with
      | .error e => (.error (GoErr.wrapped "resolve_batch" "" e), cm1, evs)
      | .ok _ =>
        match fetch with
        | .error e =>
          (.error (GoErr.wrapped "resolve_batch" "" e), cm1,
            evs ++ [ResolveEvent.httpRequest])
        | .ok records =>
          let merged := mergeBatchRecords parseIP options.clientIP now records
          let net := collectNetworkResults ipToString cm1 merged.1 merged.2 uncachedDomains
          (.ok (cachedResults ++ net.1), net.2, evs ++ [ResolveEvent.httpRequest])

end Resolver

/-- The TTL update of one merge iteration: take the record TTL when it is
positive and larger than the current value. -/
def ttlStep (m t : Int) : Int := if t > 0 ∧ t > m then t else m

/-- TTL of the merged result for a host, folded over its records starting
from `t0` (0 in a fresh result). -/
def mergedTTL (records : List HTTPDNSResponse) (h : String) (t0 : Int) : Int :=
  ((hostRecords records h).map (fun x => x.ttl)).foldl ttlStep t0

/-- resolver.go `ValidateDomain`: empty or longer than 253 bytes (Go's
`len` counts bytes) is rejected with `ErrInvalidDomain`. -/
def ValidateDomain (domain : String) : Option GoErr :=
  if domain = "" then some GoErr.invalidDomain
  else if domain.utf8ByteSize > 253 then some GoErr.invalidDomain
  else none

/-- MD5 round constants `K[0..63]` (RFC 1321), modelling `crypto/md5`. -/
def md5K : List Nat :=
  [0xd76aa478, 0xe8c7b756, 0x242070db, 0xc1bdceee,
   0xf57c0faf, 0x4787c62a, 0xa8304613, 0xfd469501,
   0x698098d8, 0x8b44f7af, 0xffff5bb1, 0x895cd7be,
   0x6b901122, 0xfd987193, 0xa679438e, 0x49b40821,
   0xf61e2562, 0xc040b340, 0x265e5a51, 0xe9b6c7aa,
   0xd62f105d, 0x02441453, 0xd8a1e681, 0xe7d3fbc8,
   0x21e1cde6, 0xc33707d6, 0xf4d50d87, 0x455a14ed,
   0xa9e3e905, 0xfcefa3f8, 0x676f02d9, 0x8d2a4c8a,
   0xfffa3942, 0x8771f681, 0x6d9d6122, 0xfde5380c,
   0xa4beea44, 0x4bdecfa9, 0xf6bb4b60, 0xbebfbc70,
   0x289b7ec6, 0xeaa127fa, 0xd4ef3085, 0x04881d05,
   0xd9d4d039, 0xe6db99e5, 0x1fa27cf8, 0xc4ac5665,
   0xf4292244, 0x432aff97, 0xab9423a7, 0xfc93a039,
   0x655b59c3, 0x8f0ccc92, 0xffeff47d, 0x85845dd1,
   0x6fa87e4f, 0xfe2ce6e0, 0xa3014314, 0x4e0811a1,
   0xf7537e82, 0xbd3af235, 0x2ad7d2bb, 0xeb86d391]

/-- MD5 per-round left-rotation amounts `s[0..63]` (RFC 1321). -/
def md5S : List Nat :=
  [7, 12, 17, 22, 7, 12, 17, 22, 7, 12, 17, 22, 7, 12, 17, 22,
   5, 9, 14, 20, 5, 9, 14, 20, 5, 9, 14, 20, 5, 9, 14, 20,
   4, 11, 16, 23, 4, 11, 16, 23, 4, 11, 16, 23, 4, 11, 16, 23,
   6, 10, 15, 21, 6, 10, 15, 21, 6, 10, 15, 21, 6, 10, 15, 21]

/-- 32-bit left rotation over `Nat` with an explicit `% 2^32`. -/
def leftrot32 (x s : Nat) : Nat :=
  ((x <<< s) ||| (x >>> (32 - s))) % 4294967296

/-- One MD5 round: state is `(a, b, c, d)`, `M` the 16 message words of
the current block, `i` the round index.  Bitwise complement is taken
within 32 bits as xor with `0xffffffff`. -/
def md5round (M : Nat → Nat) (st : Nat × Nat × Nat × Nat) (i : Nat) :
    Nat × Nat × Nat × Nat :=
  let a := st.1
  let b := st.2.1
  let c := st.2.2.1
  let d := st.2.2.2
  let f :=
    if i < 16 then (b &&& c) ||| ((b ^^^ 0xffffffff) &&& d)
    else if i < 32 then (d &&& b) ||| ((d ^^^ 0xffffffff) &&& c)
    else if i < 48 then b ^^^ c ^^^ d
    else c ^^^ (b ||| (d ^^^ 0xffffffff))
  let g :=
    if i < 16 then i
    else if i < 32 then (5 * i + 1) % 16
    else if i < 48 then (3 * i + 5) % 16
    else (7 * i) % 16
  let tmp := (a + f + md5K.getD i 0 + M g) % 4294967296
  (d, (b + leftrot32 tmp (md5S.getD i 0)) % 4294967296, b, c)

/-- Little-endian 32-bit word `j` of a 64-byte block. -/
def leWord (block : List Nat) (j : Nat) : Nat :=
  block.getD (4 * j) 0 + block.getD (4 * j + 1) 0 * 256 +
    block.getD (4 * j + 2) 0 * 65536 + block.getD (4 * j + 3) 0 * 16777216

/-- Process one 64-byte block: 64 rounds, then add into the chaining
state mod 2^32. -/
def md5block (st0 : Nat × Nat × Nat × Nat) (block : List Nat) :
    Nat × Nat × Nat × Nat :=
  let st := (List.range 64).foldl (md5round (leWord block)) st0
  ((st0.1 + st.1) % 4294967296, (st0.2.1 + st.2.1) % 4294967296,
   (st0.2.2.1 + st.2.2.1) % 4294967296, (st0.2.2.2 + st.2.2.2) % 4294967296)

/-- MD5 padding: `0x80`, zeros to 56 mod 64, then the bit length as 8
little-endian bytes. -/
def md5pad (msg : List Nat) : List Nat :=
  let len := msg.length
  let zeros := (64 - ((len + 9) % 64)) % 64
  msg ++ [0x80] ++ List.replicate zeros 0 ++
    ((List.range 8).map (fun i => ((8 * len) >>> (8 * i)) % 256))

/-- Split into 64-byte blocks, fuel-indexed so that it reduces in the
kernel (the fuel `l.length` always suffices: each step consumes 64). -/
def toBlocksAux : Nat → List Nat → List (List Nat)
  | 0, _ => []
  | _ + 1, [] => []
  | fuel + 1, l => l.take 64 :: toBlocksAux fuel (l.drop 64)

/-- All 64-byte blocks of a padded message. -/
def toBlocks (l : List Nat) : List (List Nat) := toBlocksAux l.length l

/-- Lowercase hexadecimal digit. -/
def hexDigit (n : Nat) : Char :=
  if n < 10 then Char.ofNat (48 + n) else Char.ofNat (87 + n)

/-- Two lowercase hex digits of a byte (`hex.EncodeToString`). -/
def hexByte (n : Nat) : List Char := [hexDigit (n / 16), hexDigit (n % 16)]

/-- Hex rendering of one state word, least-significant byte first (MD5's
digest byte order). -/
def wordLEHex (w : Nat) : List Char :=
  hexByte (w % 256) ++ hexByte ((w >>> 8) % 256) ++ hexByte ((w >>> 16) % 256) ++
    hexByte ((w >>> 24) % 256)

/-- `hex.EncodeToString(md5.Sum(msg))`: full MD5, lowercase hex. -/
def md5hexOfBytes (msg : List Nat) : String :=
  let st := (toBlocks (md5pad msg)).foldl md5block
    (0x67452301, 0xefcdab89, 0x98badcfe, 0x10325476)
  String.mk (wordLEHex st.1 ++ wordLEHex st.2.1 ++ wordLEHex st.2.2.1 ++ wordLEHex st.2.2.2)

/-- Bytes of a Go string (`[]byte(s)` is UTF-8; for the ASCII strings of
this development the code points are the bytes). -/
def strBytes (s : String) : List Nat := s.toList.map Char.toNat

/-- auth.go `generateSignature`: lowercase-hex MD5 of
`host + "-" + secretKey + "-" + timestamp`. -/
def generateSignature (secretKey host timestamp : String) : String :=
  md5hexOfBytes (strBytes (host ++ "-" ++ secretKey ++ "-" ++ timestamp))

/-- auth.go `generateBatchSignature`: hosts joined with "," in caller
order (not sorted), then as `generateSignature`. -/
def generateBatchSignature (secretKey : String) (hosts : List String)
    (timestamp : String) : String :=
  md5hexOfBytes (strBytes (String.intercalate "," hosts ++ "-" ++ secretKey ++ "-" ++ timestamp))

/-- The `hit` component of a cache probe, used to state the batch
partition. -/
def cacheHit (cm : CacheManager) (now : Int) (d : String) : Bool :=
  (CacheManager.Get cm now d).1.2.1

/- ===================== Theorems ===================== -/

theorem get_state_eq (c : CacheManager) (now : Int) (domain : String) :
    (CacheManager.Get c now domain).2 = c := by
  unfold CacheManager.Get
  split
  · rfl
  · split
    · rfl
    · split
      · split <;> rfl
      · rfl

theorem get_hit_entry (c : CacheManager) (now : Int) (domain : String)
    (h : (CacheManager.Get c now domain).1.2.1 = true) :
    ∃ e need, (CacheManager.Get c now domain).1 = (some e, true, need) := by
  revert h
  unfold CacheManager.Get
  split
  · intro h; exact absurd h (by simp)
  · split
    · intro h; exact absurd h (by simp)
    · split
      · split
        · intro _; exact ⟨_, true, rfl⟩
        · intro h; exact absurd h (by simp)
      · intro _; exact ⟨_, false, rfl⟩

/-- C10: CacheManager.Get never modifies the cache: for every cache state
and queried domain — disabled cache, miss, expired entry with or without
allow-expired, or fresh hit — the manager after Get equals the manager
before; in particular an expired entry is not evicted by Get. -/
theorem c10_get_is_readonly (c : CacheManager) (now : Int) (domain : String) :
    (CacheManager.Get c now domain).2 = c ∧
      ((CacheManager.Get c now domain).2).cache = c.cache := by
  refine ⟨get_state_eq c now domain, ?_⟩
  rw [get_state_eq c now domain]

/-- C9: the signature is the lowercase-hex MD5 of
`<host_or_comma_joined_hosts>-<secret>-<timestamp>`, with batch hosts
joined by "," in caller order (not sorted); the two documented vectors
hold, and swapping the batch hosts changes the signature. -/
theorem c9_signature_canonical :
    (∀ secretKey host timestamp, generateSignature secretKey host timestamp =
      md5hexOfBytes (strBytes (host ++ "-" ++ secretKey ++ "-" ++ timestamp))) ∧
    (∀ secretKey hosts timestamp, generateBatchSignature secretKey hosts timestamp =
      md5hexOfBytes (strBytes
        (String.intercalate "," hosts ++ "-" ++ secretKey ++ "-" ++ timestamp))) ∧
    generateSignature "IAmASecret" "www.aliyun.com" "1534316400" =
      "60c71e98b6d7fcbb366243e224eab457" ∧
    generateBatchSignature "IAmASecret" ["www.aliyun.com", "www.taobao.com"] "1534316400" =
      "12a3f6b1b14a46ca813ca6439beb59a4" ∧
    generateBatchSignature "IAmASecret" ["www.taobao.com", "www.aliyun.com"] "1534316400" ≠
      generateBatchSignature "IAmASecret" ["www.aliyun.com", "www.taobao.com"] "1534316400" := by
  refine ⟨fun _ _ _ => rfl, fun _ _ _ => rfl, by decide, by decide, by decide⟩

/-- C5: ResolveBatch rejects an empty list with InvalidDomain and a list
of more than 5 domains with TooManyDomains, in both cases before any
cache probe or HTTP request (empty event trace, cache untouched). -/
theorem c5_batch_size_limits {IP : Type} (parseIP : String → Option IP)
    (ipToString : IP → String) (cm : CacheManager) (now : Int)
    (domains : List String) (options : ResolveOptions)
    (updateIPs : Except GoErr Unit) (fetch : Except GoErr (List HTTPDNSResponse))
    (h : domains = [] ∨ domains.length > 5) :
    ResolveBatch parseIP ipToString cm now domains options updateIPs fetch =
      (.error (GoErr.wrapped "resolve_batch" ""
        (if domains = [] then GoErr.invalidDomain else GoErr.tooManyDomains)), cm, []) := by
  rcases h with h | h
  · simp [ResolveBatch, h]
  · have hne : domains ≠ [] := by
      intro hnil
      rw [hnil] at h
      simp at h
    simp [ResolveBatch, hne, h]

theorem c5_batch_size_limits_witness :
    ((["a", "b", "c", "d", "e", "f"] : List String) = [] ∨
      (["a", "b", "c", "d", "e", "f"] : List String).length > 5) ∧
    ResolveBatch (fun s => (some s : Option String)) (fun s => s)
      ⟨[], true, false⟩ 0 ["a", "b", "c", "d", "e", "f"] ⟨"4,6", 5, ""⟩
      (.ok ()) (.ok []) =
      (.error (GoErr.wrapped "resolve_batch" ""
        (if (["a", "b", "c", "d", "e", "f"] : List String) = [] then GoErr.invalidDomain
         else GoErr.tooManyDomains)), ⟨[], true, false⟩, []) :=
  ⟨Or.inr (by decide),
    c5_batch_size_limits (fun s => (some s : Option String)) (fun s => s)
      ⟨[], true, false⟩ 0 ["a", "b", "c", "d", "e", "f"] ⟨"4,6", 5, ""⟩
      (.ok ()) (.ok []) (Or.inr (by decide))⟩

/-- C1 counterexample: a single-attempt run (`MaxRetries = 0`) whose only
HTTP call fails with status 500 marks no IP at all, although the URL's
service IP "203.0.113.7" is non-empty — the final attempt's IP is never
demoted. -/
theorem c1_counterexample_no_mark_on_final_attempt :
    attemptFails (AttemptOutcome.urlOk "http://203.0.113.7/acct/d" (.resp 500)) ∧
    extractServiceIPFromURL "http://203.0.113.7/acct/d" = "203.0.113.7" ∧
    (DoRequestWithRetry (fun _ => .urlOk "http://203.0.113.7/acct/d" (.resp 500)) 0).2.1 = [] := by
  refine ⟨by decide, by decide, by decide⟩

theorem retryLoop_marks_failing_attempt (outcome : Nat → AttemptOutcome)
    (maxAttempts i : Nat) (url : String) (r : HttpResult) :
    ∀ fuel attempt lastErr,
      attempt + fuel = maxAttempts →
      attempt ≤ i →
      i < maxAttempts - 1 →
      (∀ j, attempt ≤ j → j ≤ i → attemptFails (outcome j)) →
      outcome i = .urlOk url r →
      extractServiceIPFromURL url ≠ "" →
      extractServiceIPFromURL url ∈ (retryLoop outcome maxAttempts attempt fuel lastErr).2.1 := by
  intro fuel
  induction fuel with
  | zero =>
    intro attempt lastErr htot hle hlt _ _ _
    omega
  | succ n ih =>
    intro attempt lastErr htot hle hlt hfails hout hne
    rcases Nat.eq_or_lt_of_le hle with heq | hlt2
    · subst heq
      have hmk : attempt < maxAttempts - 1 := hlt
      cases r with
      | transportErr =>
        simp only [retryLoop, hout, if_pos hmk, if_pos hne]
        exact List.mem_append_left _ (List.mem_singleton_self _)
      | resp status =>
        have hst : status ≠ 200 := by
          have := hfails attempt le_rfl le_rfl
          rw [hout] at this
          exact this
        simp only [retryLoop, hout, if_neg hst, if_pos hmk, if_pos hne]
        exact List.mem_append_left _ (List.mem_singleton_self _)
    · cases houtc : outcome attempt with
      | buildErr e' =>
        simp only [retryLoop, houtc]
        exact ih (attempt + 1) e' (by omega) (by omega) hlt
          (fun j h1 h2 => hfails j (by omega) h2) hout hne
      | urlOk url' r' =>
        cases r' with
        | transportErr =>
          simp only [retryLoop, houtc]
          exact List.mem_append_right _
            (ih (attempt + 1) (GoErr.wrapped "http_request" "" GoErr.transport)
              (by omega) (by omega) hlt (fun j h1 h2 => hfails j (by omega) h2) hout hne)
        | resp status' =>
          have hst : status' ≠ 200 := by
            have := hfails attempt le_rfl (by omega)
            rw [houtc] at this
            exact this
          simp only [retryLoop, houtc, if_neg hst]
          exact List.mem_append_right _
            (ih (attempt + 1) (GoErr.wrapped "http_status" "" (GoErr.httpStatus status'))
              (by omega) (by omega) hlt (fun j h1 h2 => hfails j (by omega) h2) hout hne)

/-- C1 amended: for every attempt whose HTTP call fails *and after which
another attempt remains* (`i < MaxRetries`), the service IP extracted
from that attempt's URL (when non-empty) is marked failed; on the final
attempt no marking occurs (see the counterexample). -/
theorem c1_amended_mark_failed_when_retries_remain (outcome : Nat → AttemptOutcome)
    (maxRetries i : Nat) (url : String) (r : HttpResult)
    (hi : i < maxRetries)
    (hfails : ∀ j, j ≤ i → attemptFails (outcome j))
    (hout : outcome i = .urlOk url r)
    (hne : extractServiceIPFromURL url ≠ "") :
    extractServiceIPFromURL url ∈ (DoRequestWithRetry outcome maxRetries).2.1 :=
  retryLoop_marks_failing_attempt outcome (maxRetries + 1) i url r (maxRetries + 1) 0
    GoErr.nilError (by omega) (by omega) (by omega)
    (fun j _ h2 => hfails j h2) hout hne

theorem c1_amended_mark_failed_when_retries_remain_witness :
    (0 < 1) ∧
    extractServiceIPFromURL "http://1.2.3.4/acct/d" = "1.2.3.4" ∧
    extractServiceIPFromURL "http://1.2.3.4/acct/d" ∈
      (DoRequestWithRetry (fun _ => .urlOk "http://1.2.3.4/acct/d" (.resp 500)) 1).2.1 :=
  ⟨by decide, by decide,
    c1_amended_mark_failed_when_retries_remain
      (fun _ => .urlOk "http://1.2.3.4/acct/d" (.resp 500)) 1 0
      "http://1.2.3.4/acct/d" (.resp 500) (by decide)
      (fun j _ =>
        (by decide : attemptFails (.urlOk "http://1.2.3.4/acct/d" (.resp 500))))
      rfl (by decide)⟩

/-- C2 counterexample: a 204 response (a 2xx status) is *not* returned to
the caller; the single-attempt run ends in `request_retry_failed` wrapping
an `http_status` error. -/
theorem c2_counterexample_204_not_success :
    (DoRequestWithRetry (fun _ => .urlOk "http://203.0.113.8/acct/d" (.resp 204)) 0).1 =
      RetryResult.failure (GoErr.wrapped "http_status" "" (GoErr.httpStatus 204)) := by
  decide

theorem retryLoop_success_at_200 (outcome : Nat → AttemptOutcome)
    (maxAttempts i : Nat) (url : String) :
    ∀ fuel attempt lastErr,
      attempt + fuel = maxAttempts →
      attempt ≤ i →
      i < maxAttempts →
      (∀ j, attempt ≤ j → j < i → attemptFails (outcome j)) →
      outcome i = .urlOk url (.resp 200) →
      (retryLoop outcome maxAttempts attempt fuel lastErr).1 = .success i 200 ∧
      (retryLoop outcome maxAttempts attempt fuel lastErr).2.1.length ≤ i - attempt ∧
      (retryLoop outcome maxAttempts attempt fuel lastErr).2.2 =
        List.range' (attempt + 1) (i - attempt) := by
  intro fuel
  induction fuel with
  | zero =>
    intro attempt lastErr htot hle hlt _ _
    omega
  | succ n ih =>
    intro attempt lastErr htot hle hlt hfails hout
    rcases Nat.eq_or_lt_of_le hle with heq | hlt2
    · subst heq
      simp only [retryLoop, hout, if_pos rfl]
      refine ⟨rfl, by simp, by simp⟩
    · have hrange : i - attempt = (i - (attempt + 1)) + 1 := by omega
      cases houtc : outcome attempt with
      | buildErr e' =>
        have hrec := ih (attempt + 1) e' (by omega) (by omega) hlt
          (fun j h1 h2 => hfails j (by omega) h2) hout
        have hsl : attempt < maxAttempts - 1 := by omega
        simp only [retryLoop, houtc, if_pos hsl]
        refine ⟨hrec.1, by simpa using Nat.le_trans hrec.2.1 (by omega), ?_⟩
        rw [hrec.2.2, hrange, List.range'_succ]
        simp
      | urlOk url' r' =>
        cases r' with
        | transportErr =>
          have hrec := ih (attempt + 1) (GoErr.wrapped "http_request" "" GoErr.transport)
            (by omega) (by omega) hlt (fun j h1 h2 => hfails j (by omega) h2) hout
          have hsl : attempt < maxAttempts - 1 := by omega
          simp only [retryLoop, houtc, if_pos hsl]
          constructor
          · exact hrec.1
          constructor
          · have hlen : (if extractServiceIPFromURL url' ≠ "" then [extractServiceIPFromURL url']
                else []).length ≤ 1 := by
              split <;> simp
            calc ((if extractServiceIPFromURL url' ≠ "" then [extractServiceIPFromURL url']
                else []) ++ (retryLoop outcome maxAttempts (attempt + 1) n
                  (GoErr.wrapped "http_request" "" GoErr.transport)).2.1).length
                = _ + _ := List.length_append _ _
              _ ≤ i - attempt := by
                  have := hrec.2.1
                  omega
          · simp only [List.cons_append, List.nil_append]
            rw [hrec.2.2, hrange, List.range'_succ]
        | resp status' =>
          have hst : status' ≠ 200 := by
            have := hfails attempt le_rfl (by omega)
            rw [houtc] at this
            exact this
          have hrec := ih (attempt + 1) (GoErr.wrapped "http_status" "" (GoErr.httpStatus status'))
            (by omega) (by omega) hlt (fun j h1 h2 => hfails j (by omega) h2) hout
          have hsl : attempt < maxAttempts - 1 := by omega
          simp only [retryLoop, houtc, if_neg hst, if_pos hsl]
          constructor
          · exact hrec.1
          constructor
          · have hlen : (if extractServiceIPFromURL url' ≠ "" then [extractServiceIPFromURL url']
                else []).length ≤ 1 := by
              split <;> simp
            calc ((if extractServiceIPFromURL url' ≠ "" then [extractServiceIPFromURL url']
                else []) ++ (retryLoop outcome maxAttempts (attempt + 1) n
                  (GoErr.wrapped "http_status" "" (GoErr.httpStatus status'))).2.1).length
                = _ + _ := List.length_append _ _
              _ ≤ i - attempt := by
                  have := hrec.2.1
                  omega
          · simp only [List.cons_append, List.nil_append]
            rw [hrec.2.2, hrange, List.range'_succ]

/-- C2 amended: `DoRequestWithRetry` treats exactly HTTP 200 as success —
for every attempt yielding status 200 (all earlier attempts failing), the
loop returns that attempt's response immediately: result is success at
that attempt, the backoff sleeps are exactly those of the earlier failing
attempts, and at most those attempts demoted an IP.  A non-200 2xx status
is a failure (see the counterexample). -/
theorem c2_amended_only_200_is_success (outcome : Nat → AttemptOutcome)
    (maxRetries i : Nat) (url : String)
    (hle : i ≤ maxRetries)
    (hfails : ∀ j, j < i → attemptFails (outcome j))
    (hout : outcome i = .urlOk url (.resp 200)) :
    (DoRequestWithRetry outcome maxRetries).1 = .success i 200 ∧
    (DoRequestWithRetry outcome maxRetries).2.1.length ≤ i ∧
    (DoRequestWithRetry outcome maxRetries).2.2 = List.range' 1 i := by
  have := retryLoop_success_at_200 outcome (maxRetries + 1) i url (maxRetries + 1) 0
    GoErr.nilError (by omega) (by omega) (by omega) (fun j _ h2 => hfails j h2) hout
  simpa using this

theorem c2_amended_only_200_is_success_witness :
    (1 ≤ 1) ∧
    (DoRequestWithRetry
        (fun j => if j = 0 then .urlOk "http://7.7.7.7/acct/d" (.resp 503)
          else .urlOk "http://8.8.8.8/acct/d" (.resp 200)) 1).1 = .success 1 200 ∧
    (DoRequestWithRetry
        (fun j => if j = 0 then .urlOk "http://7.7.7.7/acct/d" (.resp 503)
          else .urlOk "http://8.8.8.8/acct/d" (.resp 200)) 1).2.1.length ≤ 1 ∧
    (DoRequestWithRetry
        (fun j => if j = 0 then .urlOk "http://7.7.7.7/acct/d" (.resp 503)
          else .urlOk "http://8.8.8.8/acct/d" (.resp 200)) 1).2.2 = List.range' 1 1 :=
  ⟨by decide,
    c2_amended_only_200_is_success
      (fun j => if j = 0 then .urlOk "http://7.7.7.7/acct/d" (.resp 503)
        else .urlOk "http://8.8.8.8/acct/d" (.resp 200)) 1 1 "http://8.8.8.8/acct/d"
      (by decide)
      (fun j hj => by
        have hj0 : j = 0 := by omega
        subst hj0
        decide)
      rfl⟩

theorem ipUsable_iff (f : List (String × Int)) (now : Int) (ip : String) :
    ipUsable f now ip = true ↔ eligibleSpec f now ip := by
  unfold ipUsable eligibleSpec
  cases h : lookupFailed f ip with
  | none => simp
  | some t => simp

theorem rotate_eq_find (f : List (String × Int)) (now : Int) (l : List String) :
    rotateToUsable f now l = l.find? (ipUsable f now) := by
  induction l with
  | nil => rfl
  | cons a as ihl =>
    unfold rotateToUsable
    rw [List.find?_cons]
    cases h : ipUsable f now a <;> simp [h, ihl]

/-- C6: `GetAvailableIP` coincides with the claim's selection rule: fail
with NoServiceIPs iff the list is empty; otherwise return the current IP
when set and unmarked-or-stale (5-minute window, strict); otherwise the
first such candidate in list order, made current; otherwise the head of
the list, resetting the current pointer to it. -/
theorem c6_get_available_ip_spec (m : ServiceIPManager) (now : Int) :
    GetAvailableIP m now = pickSpec m now := by
  have hpred : (fun ip => decide (eligibleSpec m.failedIPs now ip)) =
      ipUsable m.failedIPs now := by
    funext ip
    cases hb : ipUsable m.failedIPs now ip with
    | true => simp [decide_eq_true ((ipUsable_iff m.failedIPs now ip).mp hb)]
    | false =>
      have : ¬ eligibleSpec m.failedIPs now ip := fun he => by
        have := (ipUsable_iff m.failedIPs now ip).mpr he
        rw [hb] at this
        cases this
      simp [decide_eq_false this]
  unfold GetAvailableIP pickSpec
  cases hl : m.serviceIPs with
  | nil => simp
  | cons ip0 rest =>
    have hne : (ip0 :: rest : List String) ≠ [] := by simp
    rw [if_neg hne]
    dsimp only
    have hiff : (m.currentIP ≠ "" ∧ ipUsable m.failedIPs now m.currentIP = true) ↔
        (m.currentIP ≠ "" ∧ eligibleSpec m.failedIPs now m.currentIP) :=
      and_congr Iff.rfl (ipUsable_iff m.failedIPs now m.currentIP)
    by_cases hcur : m.currentIP ≠ "" ∧ ipUsable m.failedIPs now m.currentIP = true
    · rw [if_pos hcur, if_pos (hiff.mp hcur)]
    · rw [if_neg hcur, if_neg (fun h => hcur (hiff.mpr h))]
      rw [hpred, rotate_eq_find]
      cases hf : (ip0 :: rest).find? (ipUsable m.failedIPs now) with
      | none => simp
      | some ip => simp

/-- C3: the empty host is not rejected pre-flight.  `ValidateDomain`
implements exactly the claimed check, but `ResolveSingle` never invokes
it: with an empty enabled cache, resolving the empty domain first probes
the cache, then issues the HTTP request, and returns the server's answer
instead of InvalidDomain. -/
theorem c3_no_preflight_validation :
    ValidateDomain "" = some GoErr.invalidDomain ∧
    (ResolveSingle (fun s => (some s : Option String)) (fun s => s)
        ⟨[], true, false⟩ 0 "" ⟨"4,6", 5, ""⟩ (.ok ())
        (.ok ⟨"", ["1.2.3.4"], [], 300⟩)).2.2 =
      [ResolveEvent.cacheProbe "", ResolveEvent.httpRequest] ∧
    (ResolveSingle (fun s => (some s : Option String)) (fun s => s)
        ⟨[], true, false⟩ 0 "" ⟨"4,6", 5, ""⟩ (.ok ())
        (.ok ⟨"", ["1.2.3.4"], [], 300⟩)).1 =
      .ok ⟨"", "", ["1.2.3.4"], [], 300, 0⟩ := by
  refine ⟨rfl, by decide, rfl⟩

/-- C4 counterexample: a successful batch resolve can return *no* entry
for an input host.  With an empty cache, one input host and a response
whose `dns` array is empty, `ResolveBatch` succeeds with an empty result
list instead of one entry per input host. -/
theorem c4_counterexample_missing_host :
    (ResolveBatch (fun s => (some s : Option String)) (fun s => s)
        ⟨[], true, false⟩ 0 ["a.com"] ⟨"4,6", 5, ""⟩ (.ok ()) (.ok [])).1 =
      .ok ([] : List (ResolveResult String)) := by
  rfl

theorem alLookup_insert_self {α : Type} (l : List (String × α)) (k : String) (v : α) :
    alLookup (alInsert l k v) k = some v := by
  induction l with
  | nil => simp [alInsert, alLookup, List.find?]
  | cons p rest ihl =>
    obtain ⟨k', v'⟩ := p
    by_cases h : k' = k
    · subst h
      simp [alInsert, alLookup, List.find?]
    · have hb : (k' == k) = false := by simp [h]
      simp only [alInsert, hb, Bool.false_eq_true, if_false]
      simpa [alLookup, List.find?_cons, hb] using ihl

theorem alLookup_insert_ne {α : Type} (l : List (String × α)) (k k' : String) (v : α)
    (h : k' ≠ k) : alLookup (alInsert l k v) k' = alLookup l k' := by
  have hkk : (k == k') = false := beq_eq_false_iff_ne.mpr (Ne.symm h)
  induction l with
  | nil => simp [alInsert, alLookup, List.find?, hkk]
  | cons p rest ihl =>
    obtain ⟨k0, v0⟩ := p
    by_cases h0 : k0 = k
    · subst h0
      simp [alInsert, alLookup, List.find?_cons, hkk]
    · have hb0 : (k0 == k) = false := beq_eq_false_iff_ne.mpr h0
      simp only [alInsert, hb0, Bool.false_eq_true, if_false]
      cases hbe : (k0 == k') with
      | true => simp [alLookup, List.find?_cons, hbe]
      | false => simpa [alLookup, List.find?_cons, hbe] using ihl

theorem merge_fold_lookup {IP : Type} (parseIP : String → Option IP) (clientIP : String)
    (ts : Int) (q : String) :
    ∀ (recs : List HTTPDNSResponse)
      (acc : List (String × ResolveResult IP) × List (String × Int)),
      alLookup (recs.foldl (mergeStep parseIP clientIP ts) acc).1 q =
        match alLookup acc.1 q with
        | some r0 => some { r0 with
            ipv4 := r0.ipv4 ++ joined4 parseIP recs q
            ipv6 := r0.ipv6 ++ joined6 parseIP recs q
            ttl := mergedTTL recs q r0.ttl }
        | none =>
          if recs.any (fun x => x.host == q) then
            some { domain := q, clientIP := clientIP,
                   ipv4 := joined4 parseIP recs q, ipv6 := joined6 parseIP recs q,
                   ttl := mergedTTL recs q 0, timestamp := ts }
          else none := by
  intro recs
  induction recs with
  | nil =>
    intro acc
    cases hl : alLookup acc.1 q with
    | none => simp [hl]
    | some r0 => simp [joined4, joined6, mergedTTL, hostRecords, hl]
  | cons rec0 rest ih =>
    intro acc
    rw [List.foldl_cons, ih (mergeStep parseIP clientIP ts acc rec0)]
    by_cases hhost : rec0.host = q
    · subst hhost
      have hb : (rec0.host == rec0.host) = true := beq_self_eq_true _
      cases hl : alLookup acc.1 rec0.host with
      | some r0 =>
        have hstep : alLookup (mergeStep parseIP clientIP ts acc rec0).1 rec0.host =
            some { r0 with
              ipv4 := r0.ipv4 ++ rec0.ips.filterMap parseIP
              ipv6 := r0.ipv6 ++ rec0.ipsv6.filterMap parseIP
              ttl := ttlStep r0.ttl rec0.ttl } := by
          simp only [mergeStep, hl, ttlStep]
          split
          · rw [alLookup_insert_self]
          · rw [alLookup_insert_self]
        rw [hstep]
        simp only [hl, joined4, joined6, mergedTTL, hostRecords, List.filter_cons, hb,
          if_true, List.map_cons, List.flatten_cons, List.foldl_cons, List.append_assoc]
      | none =>
        have hstep : alLookup (mergeStep parseIP clientIP ts acc rec0).1 rec0.host =
            some { domain := rec0.host, clientIP := clientIP,
                   ipv4 := rec0.ips.filterMap parseIP
                   ipv6 := rec0.ipsv6.filterMap parseIP
                   ttl := ttlStep 0 rec0.ttl, timestamp := ts } := by
          simp only [mergeStep, hl, ttlStep]
          split
          · rw [alLookup_insert_self]
            simp
          · rw [alLookup_insert_self]
            simp_all
        rw [hstep]
        have hany : (rec0 :: rest).any (fun x => x.host == rec0.host) = true := by
          simp [List.any_cons, hb]
        simp only [hl, hany, if_true, joined4, joined6, mergedTTL, hostRecords,
          List.filter_cons, hb, if_true, List.map_cons, List.flatten_cons,
          List.foldl_cons, List.nil_append]
    · have hb : (rec0.host == q) = false := beq_eq_false_iff_ne.mpr hhost
      have hstep : alLookup (mergeStep parseIP clientIP ts acc rec0).1 q =
          alLookup acc.1 q := by
        simp only [mergeStep]
        split
        · exact alLookup_insert_ne _ _ _ _ (Ne.symm hhost)
        · exact alLookup_insert_ne _ _ _ _ (Ne.symm hhost)
      rw [hstep]
      have h4 : joined4 parseIP (rec0 :: rest) q = joined4 parseIP rest q := by
        simp [joined4, hostRecords, List.filter_cons, hb]
      have h6 : joined6 parseIP (rec0 :: rest) q = joined6 parseIP rest q := by
        simp [joined6, hostRecords, List.filter_cons, hb]
      have hT : ∀ t0, mergedTTL (rec0 :: rest) q t0 = mergedTTL rest q t0 := by
        intro t0
        simp [mergedTTL, hostRecords, List.filter_cons, hb]
      have hA : (rec0 :: rest).any (fun x => x.host == q) = rest.any (fun x => x.host == q) := by
        simp [List.any_cons, hb]
      cases hl : alLookup acc.1 q with
      | some r0 => simp only [h4, h6, hT]
      | none => simp only [h4, h6, hT, hA]

theorem merge_lookup_eq {IP : Type} (parseIP : String → Option IP) (clientIP : String)
    (ts : Int) (records : List HTTPDNSResponse) (q : String) :
    alLookup (mergeBatchRecords parseIP clientIP ts records).1 q =
      if records.any (fun x => x.host == q) then
        some { domain := q, clientIP := clientIP,
               ipv4 := joined4 parseIP records q, ipv6 := joined6 parseIP records q,
               ttl := mergedTTL records q 0, timestamp := ts }
      else none := by
  unfold mergeBatchRecords
  rw [merge_fold_lookup]
  simp [alLookup]

theorem foldl_ttlStep_eq_max (l : List Int) :
    ∀ m : Int, 0 ≤ m → l.foldl ttlStep m = l.foldl max m := by
  induction l with
  | nil => intro m _; rfl
  | cons t rest ih =>
    intro m hm
    rw [List.foldl_cons, List.foldl_cons]
    have hstep : ttlStep m t = max m t := by
      unfold ttlStep
      by_cases h1 : t > 0 ∧ t > m
      · rw [if_pos h1]
        exact (max_eq_right h1.2.le).symm
      · rw [if_neg h1]
        push_neg at h1
        have ht : t ≤ m := by
          rcases le_or_lt t 0 with h2 | h2
          · exact le_trans h2 hm
          · exact h1 h2
        exact (max_eq_left ht).symm
    rw [hstep]
    exact ih (max m t) (le_trans hm (le_max_left m t))

/-- C8: in the batch merge, the result for a host appearing in the
response has an IPv4 list that concatenates the records' parseable `ips`
entries in record order, an IPv6 list likewise from `ipsv6`, and a TTL
equal to the fold of `max` over the host's TTLs starting at 0 — i.e. the
largest positive constituent TTL (0 when none is positive).  Client IP
and timestamp come from the request. -/
theorem c8_merge_per_host {IP : Type} (parseIP : String → Option IP) (clientIP : String)
    (ts : Int) (records : List HTTPDNSResponse) (q : String)
    (hmem : records.any (fun x => x.host == q) = true) :
    alLookup (mergeBatchRecords parseIP clientIP ts records).1 q =
      some { domain := q, clientIP := clientIP,
             ipv4 := joined4 parseIP records q,
             ipv6 := joined6 parseIP records q,
             ttl := ((hostRecords records q).map (fun x => x.ttl)).foldl max 0,
             timestamp := ts } := by
  rw [merge_lookup_eq, if_pos hmem]
  have : mergedTTL records q 0 = ((hostRecords records q).map (fun x => x.ttl)).foldl max 0 :=
    foldl_ttlStep_eq_max _ 0 le_rfl
  rw [this]

theorem c8_merge_per_host_witness :
    (([⟨"h.com", ["1.1.1.1"], [], 60⟩, ⟨"h.com", ["2.2.2.2", "bad ip"], ["::1"], 120⟩] :
        List HTTPDNSResponse).any (fun x => x.host == "h.com") = true) ∧
    alLookup (mergeBatchRecords
        (fun s => (if s = "bad ip" then none else some s : Option String)) "" 7
        [⟨"h.com", ["1.1.1.1"], [], 60⟩,
         ⟨"h.com", ["2.2.2.2", "bad ip"], ["::1"], 120⟩]).1 "h.com" =
      some ⟨"h.com", "", ["1.1.1.1", "2.2.2.2"], ["::1"], 120, 7⟩ :=
  ⟨by decide, by
    rw [c8_merge_per_host
      (fun s => (if s = "bad ip" then none else some s : Option String)) "" 7
      [⟨"h.com", ["1.1.1.1"], [], 60⟩, ⟨"h.com", ["2.2.2.2", "bad ip"], ["::1"], 120⟩]
      "h.com" (by decide)]
    rfl⟩

theorem partition_spec {IP : Type} (parseIP : String → Option IP) (now : Int)
    (clientIP : String) :
    ∀ (ds : List String) (cm : CacheManager),
      (partitionCached parseIP cm now clientIP ds).1.map (fun r => r.domain) =
        ds.filter (cacheHit cm now) ∧
      (partitionCached parseIP cm now clientIP ds).2.1 =
        ds.filter (fun d => !cacheHit cm now d) ∧
      (partitionCached parseIP cm now clientIP ds).2.2.1 = cm := by
  intro ds
  induction ds with
  | nil => intro cm; exact ⟨rfl, rfl, rfl⟩
  | cons d rest ih =>
    intro cm
    obtain ⟨ih1, ih2, ih3⟩ := ih cm
    have heta : CacheManager.Get cm now d =
        ((CacheManager.Get cm now d).1, (CacheManager.Get cm now d).2) := rfl
    by_cases hhit : (CacheManager.Get cm now d).1.2.1 = true
    · obtain ⟨e, need, h1⟩ := get_hit_entry cm now d hhit
      have hfull : CacheManager.Get cm now d = ((some e, true, need), cm) := by
        rw [heta, h1, get_state_eq]
      have hcH : cacheHit cm now d = true := hhit
      refine ⟨?_, ?_, ?_⟩
      · simp only [partitionCached, hfull, List.map_cons, List.filter_cons, hcH, if_true]
        rw [ih1]
        rfl
      · simp only [partitionCached, hfull, List.filter_cons, hcH, Bool.not_true,
          Bool.false_eq_true, if_false]
        exact ih2
      · simp only [partitionCached, hfull]
        exact ih3
    · have hb : (CacheManager.Get cm now d).1.2.1 = false := by
        cases hx : (CacheManager.Get cm now d).1.2.1
        · rfl
        · exact absurd hx hhit
      have hcH : cacheHit cm now d = false := hb
      rcases h1 : (CacheManager.Get cm now d).1 with ⟨eo, hitb, nb⟩
      have hitf : hitb = false := by
        have : (CacheManager.Get cm now d).1.2.1 = hitb := by rw [h1]
        rw [← this]
        exact hb
      subst hitf
      have hfull : CacheManager.Get cm now d = ((eo, false, nb), cm) := by
        rw [heta, h1, get_state_eq]
      cases eo with
      | none =>
        refine ⟨?_, ?_, ?_⟩
        · simp only [partitionCached, hfull, List.filter_cons, hcH, Bool.false_eq_true, if_false]
          exact ih1
        · simp only [partitionCached, hfull, List.filter_cons, hcH, Bool.not_false, if_true]
          rw [ih2]
        · simp only [partitionCached, hfull]
          exact ih3
      | some e =>
        refine ⟨?_, ?_, ?_⟩
        · simp only [partitionCached, hfull, List.filter_cons, hcH, Bool.false_eq_true, if_false]
          exact ih1
        · simp only [partitionCached, hfull, List.filter_cons, hcH, Bool.not_false, if_true]
          rw [ih2]
        · simp only [partitionCached, hfull]
          exact ih3

theorem collect_spec {IP : Type} (ipToString : IP → String)
    (dr : List (String × ResolveResult IP)) (dt : List (String × Int))
    (hinv : ∀ k r, alLookup dr k = some r → r.domain = k) :
    ∀ (ds : List String) (cm : CacheManager),
      (collectNetworkResults ipToString cm dr dt ds).1.map (fun r => r.domain) =
        ds.filter (fun d => (alLookup dr d).isSome) := by
  intro ds
  induction ds with
  | nil => intro cm; rfl
  | cons d rest ih =>
    intro cm
    cases hl : alLookup dr d with
    | some r =>
      have hpos : (alLookup dr d).isSome = true := by rw [hl]; rfl
      simp only [collectNetworkResults, hl, List.map_cons, List.filter_cons, hpos, if_true]
      rw [hinv d r hl, ih]
      simp
    | none =>
      have hneg : (alLookup dr d).isSome = false := by rw [hl]; rfl
      simp only [collectNetworkResults, hl, List.filter_cons, hneg, Bool.false_eq_true, if_false]
      exact ih cm

theorem merge_domain_inv {IP : Type} (parseIP : String → Option IP) (clientIP : String)
    (ts : Int) (records : List HTTPDNSResponse) :
    ∀ k r, alLookup (mergeBatchRecords parseIP clientIP ts records).1 k = some r →
      r.domain = k := by
  intro k r hkr
  rw [merge_lookup_eq] at hkr
  by_cases ha : records.any (fun x => x.host == k) = true
  · rw [if_pos ha] at hkr
    cases hkr
    rfl
  · rw [if_neg ha] at hkr
    cases hkr

/-- C4 amended: for a successful batch resolve (service IPs available,
response decoded as `records`), the returned entries' domains are exactly
the cache-hitting input hosts (in input order) followed by the uncached
input hosts for which the response carries at least one record (in input
order).  An uncached host absent from the response is silently omitted,
and a duplicated input host yields duplicated entries. -/
theorem c4_amended_one_entry_per_responding_host {IP : Type}
    (parseIP : String → Option IP) (ipToString : IP → String)
    (cm : CacheManager) (now : Int) (domains : List String) (options : ResolveOptions)
    (records : List HTTPDNSResponse)
    (hne : domains ≠ []) (hlen : domains.length ≤ 5) :
    ∃ rs cm' evs,
      ResolveBatch parseIP ipToString cm now domains options (.ok ()) (.ok records) =
        (.ok rs, cm', evs) ∧
      rs.map (fun r => r.domain) =
        domains.filter (cacheHit cm now) ++
          (domains.filter (fun d => !cacheHit cm now d)).filter
            (fun d => records.any (fun x => x.host == d)) := by
  have hlen' : ¬ domains.length > 5 := by omega
  obtain ⟨hp1, hp2, hp3⟩ := partition_spec parseIP now options.clientIP domains cm
  unfold ResolveBatch
  rw [if_neg hne, if_neg hlen']
  dsimp only
  by_cases hunc : (partitionCached parseIP cm now options.clientIP domains).2.1 = []
  · rw [if_pos hunc]
    refine ⟨_, _, _, rfl, ?_⟩
    rw [hp1]
    have hem : domains.filter (fun d => !cacheHit cm now d) = [] := by
      rw [← hp2]
      exact hunc
    rw [hem]
    simp
  · rw [if_neg hunc]
    refine ⟨_, _, _, rfl, ?_⟩
    rw [List.map_append, hp1]
    congr 1
    rw [collect_spec ipToString _ _
      (merge_domain_inv parseIP options.clientIP now records), hp2]
    apply List.filter_congr
    intro d _
    rw [merge_lookup_eq]
    cases ha : records.any (fun x => x.host == d) with
    | true => simp [ha]
    | false => simp [ha]

theorem c4_amended_one_entry_per_responding_host_witness :
    ((["a.com", "b.com"] : List String) ≠ []) ∧
    ((["a.com", "b.com"] : List String).length ≤ 5) ∧
    (∃ rs cm' evs,
      ResolveBatch (fun s => (some s : Option String)) (fun s => s)
        ⟨[], true, false⟩ 0 ["a.com", "b.com"] ⟨"4,6", 5, ""⟩ (.ok ())
        (.ok [⟨"a.com", ["1.1.1.1"], [], 60⟩]) = (.ok rs, cm', evs) ∧
      rs.map (fun r => r.domain) =
        (["a.com", "b.com"] : List String).filter (cacheHit ⟨[], true, false⟩ 0) ++
          ((["a.com", "b.com"] : List String).filter
              (fun d => !cacheHit ⟨[], true, false⟩ 0 d)).filter
            (fun d => ([⟨"a.com", ["1.1.1.1"], [], 60⟩] :
              List HTTPDNSResponse).any (fun x => x.host == d))) :=
  ⟨by decide, by decide,
    c4_amended_one_entry_per_responding_host (fun s => (some s : Option String)) (fun s => s)
      ⟨[], true, false⟩ 0 ["a.com", "b.com"] ⟨"4,6", 5, ""⟩
      [⟨"a.com", ["1.1.1.1"], [], 60⟩] (by decide) (by decide)⟩

theorem toLower_toNat (c : Char) :
    (Char.toLower c).toNat = if 65 ≤ c.toNat ∧ c.toNat ≤ 90 then c.toNat + 32 else c.toNat := by
  unfold Char.toLower
  by_cases h : 65 ≤ c.toNat ∧ c.toNat ≤ 90
  · rw [if_pos h, if_pos h]
    have hv : Nat.isValidChar (c.toNat + 32) := Or.inl (by omega)
    simp only [Char.toNat] at hv ⊢
    rw [Char.ofNat, dif_pos hv]
    simp [Char.ofNatAux, UInt32.toNat]
  · rw [if_neg h, if_neg h]

theorem goIsSpace_toLower (c : Char) : goIsSpace (Char.toLower c) = goIsSpace c := by
  simp only [goIsSpace, toLower_toNat]
  by_cases h : 65 ≤ c.toNat ∧ c.toNat ≤ 90
  · rw [if_pos h]
    rw [Bool.eq_iff_iff]
    simp only [Bool.or_eq_true, Bool.and_eq_true, decide_eq_true_eq]
    omega
  · rw [if_neg h]

theorem beq_dot_toLower (c : Char) : (Char.toLower c == '.') = (c == '.') := by
  by_cases h : 65 ≤ c.toNat ∧ c.toNat ≤ 90
  · have h1 : (Char.toLower c).toNat = c.toNat + 32 := by rw [toLower_toNat, if_pos h]
    have h2 : Char.toLower c ≠ '.' := by
      intro he
      rw [he] at h1
      have h46 : ('.' : Char).toNat = 46 := by decide
      omega
    have h3 : c ≠ '.' := by
      intro he
      subst he
      revert h
      decide
    rw [beq_eq_false_iff_ne.mpr h2, beq_eq_false_iff_ne.mpr h3]
  · have h1 : Char.toLower c = c := by
      unfold Char.toLower
      rw [if_neg h]
    rw [h1]

theorem toLower_dot_eq (c : Char) (h : c = '.') : Char.toLower c = c := by
  subst h
  decide

theorem dropWhile_all_append {p : Char → Bool} (ws l : List Char)
    (h : ∀ c ∈ ws, p c = true) : (ws ++ l).dropWhile p = l.dropWhile p := by
  rw [List.dropWhile_append]
  have hws : ws.dropWhile p = [] := List.dropWhile_eq_nil_iff.mpr h
  simp [hws]

theorem dropWhile_append_of_ne {p : Char → Bool} (l x : List Char)
    (h : l.dropWhile p ≠ []) : (l ++ x).dropWhile p = l.dropWhile p ++ x := by
  rw [List.dropWhile_append]
  have : (l.dropWhile p).isEmpty = false := by
    cases hl : l.dropWhile p with
    | nil => exact absurd hl h
    | cons a as => rfl
  simp [this]

theorem dropWhile_eq_self_of_all {p : Char → Bool} (l : List Char)
    (h : ∀ c ∈ l, p c = false) : l.dropWhile p = l := by
  cases l with
  | nil => rfl
  | cons a as =>
    rw [List.dropWhile_cons, h a (List.mem_cons_self a as)]
    simp

theorem trimRightSpace_append (l ws : List Char) (hws : spaceStr ws) :
    trimRightSpace (l ++ ws) = trimRightSpace l := by
  unfold trimRightSpace
  rw [List.reverse_append, dropWhile_all_append]
  intro c hc
  exact hws c (List.mem_reverse.mp hc)

theorem trimRightSpace_eq_self (l : List Char)
    (h : ∀ c, l.getLast? = some c → goIsSpace c = false) : trimRightSpace l = l := by
  unfold trimRightSpace
  cases hr : l.reverse with
  | nil =>
    have : l = [] := by simpa using congrArg List.reverse hr
    simp [this]
  | cons a as =>
    have hlast : l.getLast? = some a := by
      rw [← List.head?_reverse, hr]
      rfl
    rw [List.dropWhile_cons, h a hlast]
    simp only [Bool.false_eq_true, if_false]
    rw [← hr, List.reverse_reverse]

theorem trimRightDots_append (l dots : List Char) (hd : dotStr dots) :
    trimRightDots (l ++ dots) = trimRightDots l := by
  unfold trimRightDots
  rw [List.reverse_append, dropWhile_all_append]
  intro c hc
  have : c = '.' := hd c (List.mem_reverse.mp hc)
  simp [this]

theorem map_toLower_dots (dots : List Char) (hd : dotStr dots) :
    dots.map Char.toLower = dots := by
  have : dots.map Char.toLower = dots.map id :=
    List.map_congr_left (fun a ha => toLower_dot_eq a (hd a ha))
  rw [this, List.map_id]

theorem dropWhile_space_map_toLower (l : List Char) :
    (l.map Char.toLower).dropWhile goIsSpace = (l.dropWhile goIsSpace).map Char.toLower := by
  rw [List.dropWhile_map]
  have : goIsSpace ∘ Char.toLower = goIsSpace := funext goIsSpace_toLower
  rw [this]

theorem normList_push_map (l : List Char) :
    normList l = trimRightDots (trimRightSpace (trimLeftSpace (l.map Char.toLower))) := by
  unfold normList trimLeftSpace trimRightSpace
  congr 1
  rw [dropWhile_space_map_toLower, ← List.map_reverse, dropWhile_space_map_toLower,
    ← List.map_reverse]

theorem normList_leading_space (ws l : List Char) (hws : spaceStr ws) :
    normList (ws ++ l) = normList l := by
  unfold normList trimLeftSpace
  rw [dropWhile_all_append _ _ hws]

theorem normList_space_suffix (l ws : List Char) (hws : spaceStr ws) :
    normList (l ++ ws) = normList l := by
  unfold normList trimLeftSpace
  by_cases hl : l.dropWhile goIsSpace = []
  · have h2 : (l ++ ws).dropWhile goIsSpace = [] := by
      rw [List.dropWhile_append]
      have hws2 : ws.dropWhile goIsSpace = [] := List.dropWhile_eq_nil_iff.mpr hws
      simp [hl, hws2]
    rw [h2, hl]
  · rw [dropWhile_append_of_ne _ _ hl, trimRightSpace_append _ _ hws]

theorem normList_dots_suffix (l dots : List Char) (hd : dotStr dots)
    (hlast : ∀ c, l.getLast? = some c → goIsSpace c = false) :
    normList (l ++ dots) = normList l := by
  by_cases hl : l = []
  · subst hl
    rw [List.nil_append]
    unfold normList trimLeftSpace
    have h1 : dots.dropWhile goIsSpace = dots := by
      apply dropWhile_eq_self_of_all
      intro c hc
      have : c = '.' := hd c hc
      rw [this]
      decide
    rw [h1]
    have h2 : trimRightSpace dots = dots := by
      apply trimRightSpace_eq_self
      intro c hc
      rw [List.getLast?_eq_some_iff] at hc
      obtain ⟨ys, hys⟩ := hc
      have : c = '.' := hd c (by simp [hys])
      rw [this]
      decide
    rw [h2, map_toLower_dots _ hd]
    unfold trimRightDots
    have h3 : dots.reverse.dropWhile (fun c => c == '.') = [] := by
      apply List.dropWhile_eq_nil_iff.mpr
      intro c hc
      have : c = '.' := hd c (List.mem_reverse.mp hc)
      simp [this]
    rw [h3]
    rfl
  · have hnz : l.dropWhile goIsSpace ≠ [] := by
      intro hall
      rw [List.dropWhile_eq_nil_iff] at hall
      have hsome : l.getLast?.isSome = true := List.getLast?_isSome.mpr hl
      obtain ⟨c, hc⟩ := Option.isSome_iff_exists.mp hsome
      have hmem : c ∈ l := by
        rw [List.getLast?_eq_some_iff] at hc
        obtain ⟨ys, hys⟩ := hc
        simp [hys]
      have := hall c hmem
      rw [hlast c hc] at this
      cases this
    unfold normList trimLeftSpace
    rw [dropWhile_append_of_ne _ _ hnz]
    have hlast' : ∀ c, (l.dropWhile goIsSpace).getLast? = some c → goIsSpace c = false := by
      intro c hc
      apply hlast
      conv_lhs => rw [← List.takeWhile_append_dropWhile goIsSpace l]
      rw [List.getLast?_append, hc]
      rfl
    by_cases hdnil : dots = []
    · subst hdnil
      rw [List.append_nil]
    · have hdlast : ∀ c, (l.dropWhile goIsSpace ++ dots).getLast? = some c →
          goIsSpace c = false := by
        intro c hc
        rw [List.getLast?_append] at hc
        have hdsome : dots.getLast?.isSome = true := List.getLast?_isSome.mpr hdnil
        obtain ⟨c0, hc0⟩ := Option.isSome_iff_exists.mp hdsome
        rw [hc0] at hc
        have heq : c0 = c := by
          simpa [Option.or] using hc
        subst heq
        have hcm : c0 ∈ dots := by
          rw [List.getLast?_eq_some_iff] at hc0
          obtain ⟨ys, hys⟩ := hc0
          simp [hys]
        have : c0 = '.' := hd c0 hcm
        rw [this]
        decide
      rw [trimRightSpace_eq_self _ hdlast, trimRightSpace_eq_self _ hlast',
        List.map_append, map_toLower_dots _ hd, trimRightDots_append _ _ hd]

theorem normList_case_equiv (c s : List Char)
    (h : c.map Char.toLower = s.map Char.toLower) : normList c = normList s := by
  rw [normList_push_map, normList_push_map, h]

theorem normList_variant (s v ws1 c dots ws2 : List Char)
    (hws1 : spaceStr ws1) (hc : c.map Char.toLower = s.map Char.toLower)
    (hdots : dotStr dots) (hws2 : spaceStr ws2)
    (hv : v = ws1 ++ c ++ dots ++ ws2)
    (hlast : ∀ ch, s.getLast? = some ch → goIsSpace ch = false) :
    normList v = normList s := by
  subst hv
  have hassoc : ws1 ++ c ++ dots ++ ws2 = ws1 ++ ((c ++ dots) ++ ws2) := by
    simp [List.append_assoc]
  rw [hassoc, normList_leading_space _ _ hws1, normList_space_suffix _ _ hws2]
  have hlastc : ∀ ch, c.getLast? = some ch → goIsSpace ch = false := by
    intro ch hch
    have h1 : (c.map Char.toLower).getLast? = some (Char.toLower ch) := by
      rw [List.getLast?_map, hch]
      rfl
    rw [hc, List.getLast?_map] at h1
    obtain ⟨ch', hch', hlow⟩ := Option.map_eq_some'.mp h1
    have h2 : goIsSpace ch' = false := hlast ch' hch'
    calc goIsSpace ch = goIsSpace (Char.toLower ch) := (goIsSpace_toLower ch).symm
      _ = goIsSpace (Char.toLower ch') := by rw [hlow]
      _ = goIsSpace ch' := goIsSpace_toLower ch'
      _ = false := h2
  rw [normList_dots_suffix _ _ hdots hlastc]
  exact normList_case_equiv c s hc

/-- C7 counterexample: for s = `"a "` (trailing space) and its variant
v = `"a ."` (one trailing dot appended), Set(s, e) stores under key `"a"`
but Get(v) normalizes to `"a "` and misses: the appended dot shields the
trailing space from trimming (trim-space runs before dot-stripping), so
Set and Get do not address the same slot even though the entry is stored
and unexpired (Get(s) itself returns it). -/
theorem c7_counterexample_trailing_space :
    domainVariant "a " "a ." ∧
    (CacheManager.Get (CacheManager.Set ⟨[], true, false⟩ "a " ⟨["1.2.3.4"], [], 300, 0⟩)
        0 "a ").1 = (some ⟨["1.2.3.4"], [], 300, 0⟩, true, false) ∧
    (CacheManager.Get (CacheManager.Set ⟨[], true, false⟩ "a " ⟨["1.2.3.4"], [], 300, 0⟩)
        0 "a .").1 = (none, false, false) := by
  refine ⟨⟨[], "a ".toList, ['.'], [], ?_, by decide, ?_, ?_, by decide⟩, by decide, by decide⟩
  · intro x hx
    cases hx
  · intro x hx
    have : x = '.' := by
      cases hx with
      | head => rfl
      | tail _ h => cases h
    exact this
  · intro x hx
    cases hx

/-- C7 amended: with the memory cache enabled, for every string s that
does not end in a whitespace character, every case/whitespace/trailing-dot
variant v of s, and every entry e with positive TTL: after Set(s, e),
Get(v) returns e while it is unexpired — Set and Get address the same
normalized slot.  (For s with trailing whitespace the property fails; see
the counterexample.) -/
theorem c7_amended_normalized_slot (s v : String) (cm : CacheManager) (e : CacheEntry)
    (now : Int)
    (hen : cm.enabled = true)
    (hvar : domainVariant s v)
    (hlast : ∀ ch, s.toList.getLast? = some ch → goIsSpace ch = false)
    (httl : 0 < e.ttl)
    (hfresh : ¬ now > e.queryTime + e.ttl) :
    (CacheManager.Get (CacheManager.Set cm s e) now v).1 = (some e, true, false) := by
  obtain ⟨ws1, c, dots, ws2, hws1, hcx, hdots, hws2, hv⟩ := hvar
  have hnorm : normalizeDomain v = normalizeDomain s := by
    unfold normalizeDomain
    rw [normList_variant s.toList v.toList ws1 c dots ws2 hws1 hcx hdots hws2 hv hlast]
  have hset : CacheManager.Set cm s e =
      { cm with cache := insertCache cm.cache (normalizeDomain s) e } := by
    unfold CacheManager.Set
    rw [hen]
    simp only [Bool.not_true, Bool.false_eq_true, if_false]
    rw [if_neg (by omega : ¬ e.ttl ≤ 0)]
  rw [hset]
  unfold CacheManager.Get
  simp only [hen, Bool.not_true, Bool.false_eq_true, if_false]
  rw [hnorm]
  have hlook : lookupCache (insertCache cm.cache (normalizeDomain s) e)
      (normalizeDomain s) = some e := by
    unfold lookupCache insertCache
    exact alLookup_insert_self _ _ _
  rw [hlook]
  have hexp : e.IsExpired now = false := by
    unfold CacheEntry.IsExpired
    exact decide_eq_false hfresh
  simp [hexp]

theorem c7_amended_normalized_slot_witness :
    ((⟨[], true, false⟩ : CacheManager).enabled = true) ∧
    domainVariant "Example.Com" "  EXAMPLE.com.  " ∧
    (∀ ch, "Example.Com".toList.getLast? = some ch → goIsSpace ch = false) ∧
    ((0 : Int) < 300) ∧
    (¬ (10 : Int) > 0 + 300) ∧
    (CacheManager.Get
        (CacheManager.Set ⟨[], true, false⟩ "Example.Com" ⟨["5.6.7.8"], [], 300, 0⟩)
        10 "  EXAMPLE.com.  ").1 = (some ⟨["5.6.7.8"], [], 300, 0⟩, true, false) :=
  ⟨rfl,
    ⟨"  ".toList, "EXAMPLE.com".toList, ['.'], "  ".toList,
      by decide, by decide, by decide, by decide, by decide⟩,
    fun ch hch => by
      have : ch = 'm' := by
        have h2 : "Example.Com".toList.getLast? = some 'm' := by decide
        rw [h2] at hch
        cases hch
        rfl
      rw [this]
      decide,
    by decide, by decide,
    c7_amended_normalized_slot "Example.Com" "  EXAMPLE.com.  " ⟨[], true, false⟩
      ⟨["5.6.7.8"], [], 300, 0⟩ 10 rfl
      ⟨"  ".toList, "EXAMPLE.com".toList, ['.'], "  ".toList,
        by decide, by decide, by decide, by decide, by decide⟩
      (fun ch hch => by
        have : ch = 'm' := by
          have h2 : "Example.Com".toList.getLast? = some 'm' := by decide
          rw [h2] at hch
          cases hch
          rfl
        rw [this]
        decide)
      (by decide) (by decide)⟩

end HTTPDNS
